import Mathlib

/-!
Shallow embedding of `src/savegame_reader/savegame.py` (class `Savegame`),
the schema-driven OpenTTD savegame decoder.  Byte streams are modelled as
`List Nat` (each element a byte value), exceptions as `Except String`,
and the mutable `self.tables` / `self.items` dictionaries as insertion-ordered
association lists with Python-dict update semantics.
-/

namespace Savegame

/-- Error message used by the modelled primitive readers when the stream or
byte span ends prematurely.  Modelled from the spec: the Primitive Reader's
`read(n)` returns "exactly n bytes or fails". -/
def eofMsg : String := "Unexpected end of data."

/-- Fuel-exhaustion message of the embedding's bounded recursions (never hit
when the fuel is at least the length of the input plus one). -/
def fuelMsg : String := "Out of fuel."

/-- Modelled from the spec: `read(n) -> exactly n bytes or fails`. -/
def readExact (n : Nat) (data : List Nat) : Except String (List Nat × List Nat) :=
  if n ≤ data.length then .ok (data.take n, data.drop n) else .error eofMsg

/-- Big-endian value of a byte list (most significant byte first). -/
def beVal (bs : List Nat) : Nat :=
  bs.foldl (fun a b => a * 256 + b) 0

/-- Modelled from the spec: fixed-width big-endian unsigned integer read of
`w` bytes (`uint8`/`uint16`/`uint24`/`uint32`). -/
def readUIntBE (w : Nat) (data : List Nat) : Except String (Nat × List Nat) := do
  let (bs, rest) ← readExact w data
  pure (beVal bs, rest)

/-- Modelled from the spec: the variable-length "gamma" integer read, which
reports both the decoded value and how many bytes the encoding occupied.
The bit layout follows the OpenTTD simple-gamma convention (the number of
leading one bits of the first byte gives the number of extra bytes); the
core decoder relies only on the `(value, encoded_byte_length)` pair.
Returns `(value, encoded_byte_length, rest)`. -/
def gammaDec (data : List Nat) : Except String (Nat × Nat × List Nat) := do
  let (b, r) ← readUIntBE 1 data
  if b < 0x80 then
    pure (b, 1, r)
  else if b < 0xC0 then do
    let (x, r2) ← readUIntBE 1 r
    pure ((b % 0x40) * 256 + x, 2, r2)
  else if b < 0xE0 then do
    let (x, r2) ← readUIntBE 2 r
    pure ((b % 0x20) * 65536 + x, 3, r2)
  else if b < 0xF0 then do
    let (x, r2) ← readUIntBE 3 r
    pure ((b % 0x10) * 16777216 + x, 4, r2)
  else do
    let (x, r2) ← readUIntBE 4 r
    pure (x, 5, r2)

/-- Bytes of a tag or key, decoded to a string character by character
(the names and tags used by the format are ASCII). -/
def bytesToString (bs : List Nat) : String :=
  String.mk (bs.map Char.ofNat)

/-- `FieldType` from `enums.py` (external collaborator).  Modelled from the
spec: a closed enumeration of scalar kinds — fixed-width integers of several
widths and signedness, a string id, a string, and a composite STRUCT kind. -/
inductive FieldType where
  | i8 | u8 | i16 | u16 | i32 | u32 | i64 | u64
  | stringid
  | strkind
  | struct
deriving DecidableEq, Repr

/-- `FieldType(n)` for the low nibble of a schema type byte; `none` models the
Python `ValueError` for an unrecognized kind. -/
def fieldTypeOfNat (n : Nat) : Option FieldType :=
  match n with
  | 1 => some .i8
  | 2 => some .u8
  | 3 => some .i16
  | 4 => some .u16
  | 5 => some .i32
  | 6 => some .u32
  | 7 => some .i64
  | 8 => some .u64
  | 9 => some .stringid
  | 10 => some .strkind
  | 11 => some .struct
  | _ => none

/-- `FIELD_TYPE_HAS_LENGTH_FIELD` from `enums.py`: the high bit of the schema
type byte marking a field as a list. -/
def FIELD_TYPE_HAS_LENGTH_FIELD : Nat := 0x10

/-- A parsed schema field: the `(field_type, is_list, key)` triple appended by
`Savegame._read_table`. -/
structure FieldDesc where
  ftype : FieldType
  isList : Bool
  name : String
deriving DecidableEq, Repr

/-- Embedding of `Savegame._read_table`: read one table from the header,
returning the field list, the accumulated `size`, and the unread rest of the
stream.  `fuel` bounds the loop; `data.length + 1` always suffices. -/
def readTableF (fuel : Nat) (data : List Nat) :
    Except String (List FieldDesc × Nat × List Nat) :=
  match fuel with
  | 0 => .error fuelMsg
  | fuel + 1 => do
    let (t, r1) ← readUIntBE 1 data
    if t = 0 then
      pure ([], 1, r1)
    else do
      let (keyLength, indexSize, r2) ← gammaDec r1
      let (keyBytes, r3) ← readExact keyLength r2
      match fieldTypeOfNat (t &&& 0xf) with
      | none => .error "Unrecognized field type."
      | some ft => do
        let fld : FieldDesc :=
          { ftype := ft
            isList := decide (t &&& FIELD_TYPE_HAS_LENGTH_FIELD ≠ 0)
            name := bytesToString keyBytes }
        let (fields, size, r4) ← readTableF fuel r3
        pure (fld :: fields, 1 + keyLength + indexSize + size, r4)

/-- `Savegame._read_table` with enough fuel for any input. -/
def readTable (data : List Nat) : Except String (List FieldDesc × Nat × List Nat) :=
  readTableF (data.length + 1) data

/-- Association-list lookup, modelling Python `d[k]` / `k in d`. -/
def dictFind (k : String) : List (String × α) → Option α
  | [] => none
  | (k', v) :: t => if k' = k then some v else dictFind k t

/-- Python-dict assignment `d[k] = v`: replaces in place when the key exists,
otherwise appends (insertion order preserved). -/
def dictInsert (k : String) (v : α) : List (String × α) → List (String × α)
  | [] => [(k, v)]
  | (k', v') :: t => if k' = k then (k, v) :: t else (k', v') :: dictInsert k v t

/-- A per-chunk schema registry: schema key → field list. -/
abbrev Tables := List (String × List FieldDesc)

/-- Embedding of `Savegame._read_substruct`: scan the table at `key` for
STRUCT fields and read their sub-tables, registering each under the dotted
key.  Returns the updated registry, the total size of the sub-tables, and the
unread rest.  `fuel` bounds the recursion. -/
def readSubstructF (fuel : Nat) (data : List Nat) (tables : Tables) (key : String)
    (fields : List FieldDesc) : Except String (Tables × Nat × List Nat) :=
  match fuel with
  | 0 => .error fuelMsg
  | fuel + 1 =>
    match fields with
    | [] => pure (tables, 0, data)
    | fld :: rest =>
      if fld.ftype = .struct then do
        let tableKey := key ++ "." ++ fld.name
        let (subFields, subSize, r1) ← readTableF fuel data
        let tables1 := dictInsert tableKey subFields tables
        let (tables2, size2, r2) ← readSubstructF fuel r1 tables1 tableKey subFields
        let (tables3, size3, r3) ← readSubstructF fuel r2 tables2 key rest
        pure (tables3, subSize + size2 + size3, r3)
      else
        readSubstructF fuel data tables key rest

/-- Embedding of `Savegame.read_all_tables`: read the root table and all of
its sub-tables, returning the registry, the total size and the rest. -/
def readAllTablesF (fuel : Nat) (data : List Nat) :
    Except String (Tables × Nat × List Nat) := do
  let (rootFields, size, r1) ← readTableF fuel data
  let tables : Tables := [("root", rootFields)]
  let (tables2, subSize, r2) ← readSubstructF fuel r1 tables "root" rootFields
  pure (tables2, size + subSize, r2)

/-- `Savegame.read_all_tables` with enough fuel for any input. -/
def readAllTables (data : List Nat) : Except String (Tables × Nat × List Nat) :=
  readAllTablesF (data.length + 1) data

/-- A decoded value: scalar integer, string, list of values, or a nested
record mapping (Python dict in insertion order). -/
inductive Value where
  | int (i : Int)
  | str (s : String)
  | list (vs : List Value)
  | dict (fields : List (String × Value))

/-- Modelled from the spec: the pure gamma read of `PassthroughReader`
(`read_gamma`), returning the value and the remaining bytes. -/
def readGammaP (data : List Nat) : Except String (Nat × List Nat) := do
  let (v, _, r) ← gammaDec data
  pure (v, r)

/-- Modelled from the spec: a fixed-width big-endian scalar read of `w` bytes,
signed or unsigned (`read_int8` .. `read_uint64` of `PassthroughReader`). -/
def readFixed (w : Nat) (signed : Bool) (data : List Nat) :
    Except String (Value × List Nat) := do
  let (u, rest) ← readUIntBE w data
  if signed ∧ 2 ^ (8 * w - 1) ≤ u then
    pure (.int ((u : Int) - 2 ^ (8 * w)), rest)
  else
    pure (.int (u : Int), rest)

/-- Modelled from the spec: the length-prefixed string read (`read_string` of
`PassthroughReader`): a gamma length followed by that many bytes of text. -/
def readStringP (data : List Nat) : Except String (String × List Nat) := do
  let (n, r1) ← readGammaP data
  let (bs, r2) ← readExact n r1
  pure (bytesToString bs, r2)

/-- Modelled from the spec: the `READERS` dispatch table of
`PassthroughReader`, keyed by scalar field kind.  STRUCT has no scalar
reader (it is handled by `read_field` before this dispatch). -/
def scalarReader (ft : FieldType) (data : List Nat) : Except String (Value × List Nat) :=
  match ft with
  | .i8 => readFixed 1 true data
  | .u8 => readFixed 1 false data
  | .i16 => readFixed 2 true data
  | .u16 => readFixed 2 false data
  | .i32 => readFixed 4 true data
  | .u32 => readFixed 4 false data
  | .i64 => readFixed 8 true data
  | .u64 => readFixed 8 false data
  | .stringid => readFixed 2 false data
  | .strkind => do
    let (s, rest) ← readStringP data
    pure (.str s, rest)
  | .struct => .error "No scalar reader for STRUCT."

mutual

/-- Embedding of `Savegame._read_item`: decode one record of the schema at
`key`, returning the result mapping and the unconsumed rest of the span. -/
def readItemRecF (fuel : Nat) (data : List Nat) (tables : Tables) (key : String) :
    Except String (List (String × Value) × List Nat) :=
  match fuel with
  | 0 => .error fuelMsg
  | fuel + 1 =>
    match dictFind key tables with
    | none => .error ("Unknown table key " ++ key ++ ".")
    | some fields => readFieldsF fuel fields data tables key []

/-- The `for field in tables[key]` loop of `Savegame._read_item`, with the
result dict built up in `result`. -/
def readFieldsF (fuel : Nat) (fields : List FieldDesc) (data : List Nat)
    (tables : Tables) (key : String) (result : List (String × Value)) :
    Except String (List (String × Value) × List Nat) :=
  match fuel with
  | 0 => .error fuelMsg
  | fuel + 1 =>
    match fields with
    | [] => pure (result, data)
    | fld :: rest => do
      let (v, d1) ← readFieldF fuel data tables fld.ftype fld.isList fld.name key
      readFieldsF fuel rest d1 tables key (dictInsert fld.name v result)

/-- Embedding of `Savegame.read_field`: decode one field value from the front
of `data`. -/
def readFieldF (fuel : Nat) (data : List Nat) (tables : Tables) (ft : FieldType)
    (isList : Bool) (fieldName : String) (key : String) :
    Except String (Value × List Nat) :=
  match fuel with
  | 0 => .error fuelMsg
  | fuel + 1 =>
    if isList ∧ ft ≠ .strkind then do
      let (len, d1) ← readGammaP data
      let (vs, d2) ← readListF fuel len d1 tables ft fieldName key
      pure (.list vs, d2)
    else if ft = .struct then do
      let (m, d1) ← readItemRecF fuel data tables (key ++ "." ++ fieldName)
      pure (.dict m, d1)
    else
      scalarReader ft data

/-- The `for _ in range(length)` loop of `Savegame.read_field`: decode `n`
values of kind `ft` back-to-back. -/
def readListF (fuel : Nat) (n : Nat) (data : List Nat) (tables : Tables)
    (ft : FieldType) (fieldName : String) (key : String) :
    Except String (List Value × List Nat) :=
  match fuel with
  | 0 => .error fuelMsg
  | fuel + 1 =>
    match n with
    | 0 => pure ([], data)
    | n + 1 => do
      let (v, d1) ← readFieldF fuel data tables ft false fieldName key
      let (vs, d2) ← readListF fuel n d1 tables ft fieldName key
      pure (v :: vs, d2)

end

/-- The state carried by a decode: the `self.tables` registry (per chunk tag:
either the parsed schema registry, the `{"unsupported": ""}` marker, or the
`{"slxi": ""}` marker) and the `self.items` store. -/
inductive TablesEntry where
  | tables (t : Tables)
  | unsupported
  | slxi
deriving DecidableEq

structure SaveState where
  tables : List (String × TablesEntry)
  items : List (String × List (String × Value))

/-- The empty initial state of `Savegame.__init__`. -/
def initState : SaveState := { tables := [], items := [] }

/-- `self.items[tag][idx] = v` on a `defaultdict(dict)`. -/
def insertItem (tag idx : String) (v : Value) (st : SaveState) : SaveState :=
  { st with
    items := dictInsert tag (dictInsert idx v ((dictFind tag st.items).getD [])) st.items }

/-- Embedding of `Savegame.read_item`: decode one chunk record at `index`.
With a non-empty schema registry the record is decoded under key `"root"`,
stored at the string index, and leftover bytes raise "Junk at end of chunk"
unless the tag is allow-listed; with an empty registry the chunk is marked
unsupported and no item is stored. -/
def readItem (fuel : Nat) (tag : String) (tables : Tables) (index : Int)
    (data : List Nat) (st : SaveState) : Except String SaveState :=
  let tableIndex := if index = -1 then "0" else toString index
  if tables.isEmpty then
    pure { st with tables := dictInsert tag .unsupported st.tables }
  else do
    let (item, rest) ← readItemRecF fuel data tables "root"
    let st1 := insertItem tag tableIndex (.dict item) st
    if tag ≠ "GSDT" ∧ tag ≠ "AIPL" then
      if rest.length ≠ 0 then .error ("Junk at end of chunk " ++ tag)
      else pure st1
    else pure st1

/-- Flag-bit translation of `Savegame.read_slxi`. -/
def slxiFlagNames (flags : Nat) : List String :=
  (if flags &&& 1 ≠ 0 then ["ignorable unknown"] else []) ++
  (if flags &&& 2 ≠ 0 then ["ignorable version"] else []) ++
  (if flags &&& 4 ≠ 0 then ["extra data present"] else []) ++
  (if flags &&& 8 ≠ 0 then ["chunk ID list present"] else [])

/-- The `for _ in range(extra_chunk_count)` loop of `Savegame.read_slxi`:
each chunk id is the next 4-byte slice (Python slicing, short at the end). -/
def slxiChunkList : Nat → List Nat → List String × List Nat
  | 0, d => ([], d)
  | n + 1, d =>
    let c := bytesToString (d.take 4)
    let (rest, d1) := slxiChunkList n (d.drop 4)
    (c :: rest, d1)

/-- The body of the `for idx in range(item_count)` loop of
`Savegame.read_slxi`: decode one extension descriptor. -/
def slxiItemP (data : List Nat) : Except String (Value × List Nat) := do
  let (flags, d1) ← readUIntBE 4 data
  let (version, d2) ← readUIntBE 2 d1
  let (name, d3) ← readStringP d2
  let item : List (String × Value) :=
    [("name", .str name), ("version", .int version),
     ("flags", .list ((slxiFlagNames flags).map .str))]
  let (item, d4) ←
    if flags &&& 4 ≠ 0 then do
      let (extraSize, d4) ← readUIntBE 4 d3
      let extra := d4.take extraSize
      let v := if name = "version_label" then Value.str (bytesToString extra)
               else Value.list (extra.map fun b => .int b)
      pure (dictInsert "extra_data" v item, d4.drop extraSize)
    else pure (item, d3)
  let (item, d5) ←
    if flags &&& 8 ≠ 0 then do
      let (extraChunkCount, d5) ← readUIntBE 4 d4
      let (chunks, d6) := slxiChunkList extraChunkCount d5
      pure (dictInsert "chunks" (Value.list (chunks.map .str)) item, d6)
    else pure (item, d4)
  pure (.dict item, d5)

/-- The item loop of `Savegame.read_slxi`: parse `n` descriptors, storing the
one parsed at ordinal `idx` under string index `toString idx`. -/
def slxiLoop (tag : String) : Nat → Nat → SaveState → List Nat →
    Except String (SaveState × List Nat)
  | 0, _, st, d => pure (st, d)
  | n + 1, idx, st, d => do
    let (item, d1) ← slxiItemP d
    slxiLoop tag n (idx + 1) (insertItem tag (toString idx) item st) d1

/-- Embedding of `Savegame.read_slxi`: the version/flags-gated extension chunk
decoder.  Bytes left over after the last parsed item are dropped. -/
def readSlxi (tag : String) (data : List Nat) (st : SaveState) :
    Except String SaveState := do
  let st0 := { st with tables := dictInsert tag .unsupported st.tables }
  let (chunkVersion, d1) ← readUIntBE 4 data
  if chunkVersion > 0 then pure st0
  else do
    let (chunkFlags, d2) ← readUIntBE 4 d1
    if chunkFlags ≠ 0 then pure st0
    else do
      let st1 := { st0 with tables := dictInsert tag .slxi st0.tables }
      let (itemCount, d3) ← readUIntBE 4 d2
      let (st2, _) ← slxiLoop tag itemCount 0 st1 d3
      pure st2

/-- The `while True` record loop of `Savegame.read` for a collection chunk of
type `ctype` (1–4): read a gamma record size; value 0 (size `-1`) ends the
loop; for sparse types 2/4 read an explicit gamma index and subtract its
encoded length from the record size; for dense types 1/3 increment the index;
decode one record when the remaining size is nonzero. -/
def recordLoop (fuel : Nat) (tag : String) (tables : Tables) (ctype : Nat)
    (index : Int) (st : SaveState) (data : List Nat) :
    Except String (SaveState × List Nat) :=
  match fuel with
  | 0 => .error fuelMsg
  | fuel + 1 => do
    let (v, _, d1) ← gammaDec data
    let size : Int := (v : Int) - 1
    if size < 0 then pure (st, d1)
    else if ctype = 2 ∨ ctype = 4 then do
      let (idx, indexSize, d2) ← gammaDec d1
      let size2 : Int := size - indexSize
      if size2 ≠ 0 then do
        let (payload, d3) ← readExact size2.toNat d2
        let st1 ← readItem fuel tag tables idx payload st
        recordLoop fuel tag tables ctype idx st1 d3
      else recordLoop fuel tag tables ctype idx st d2
    else do
      let index1 := index + 1
      if size ≠ 0 then do
        let (payload, d3) ← readExact size.toNat d1
        let st1 ← readItem fuel tag tables index1 payload st
        recordLoop fuel tag tables ctype index1 st1 d3
      else recordLoop fuel tag tables ctype index1 st d1

/-- One iteration of the chunk loop of `Savegame.read`, after the 4-byte tag:
read the header byte, dispatch on its low nibble, and return the updated
state and the unread rest of the stream. -/
def processChunk (fuel : Nat) (tag : String) (st : SaveState) (data : List Nat) :
    Except String (SaveState × List Nat) := do
  let (m, d1) ← readUIntBE 1 data
  let ctype := m &&& 0xF
  if ctype = 0 then do
    let (len24, d2) ← readUIntBE 3 d1
    let size := (m >>> 4) <<< 24 ||| len24
    let (payload, d3) ← readExact size d2
    if tag = "SLXI" then do
      let st1 ← readSlxi tag payload st
      pure (st1, d3)
    else do
      let st1 ← readItem fuel tag [] (-1) payload st
      pure (st1, d3)
  else if 1 ≤ ctype ∧ ctype ≤ 4 then
    if 3 ≤ ctype then do
      let (v, _, d2) ← gammaDec d1
      let size : Int := (v : Int) - 1
      let (tables, sizeRead, d3) ← readAllTablesF fuel d2
      if (sizeRead : Int) ≠ size then .error "Table header size mismatch."
      else
        recordLoop fuel tag tables ctype (-1)
          { st with tables := dictInsert tag (.tables tables) st.tables } d3
    else
      recordLoop fuel tag [] ctype (-1) st d1
  else .error "Unknown chunk type."

/-- Embedding of `Savegame._check_tail`: succeed exactly when no further byte
can be read. -/
def checkTail (data : List Nat) : Except String Unit :=
  match readUIntBE 1 data with
  | .error _ => .ok ()
  | .ok _ => .error "Junk at the end of file."

/-- The `while True` chunk loop of `Savegame.read` (after decompression),
followed by the `_check_tail` call: read 4-byte tags and process chunks until
EOF or the all-zero tag. -/
def chunkLoop (fuel : Nat) (st : SaveState) (data : List Nat) :
    Except String SaveState :=
  match fuel with
  | 0 => .error fuelMsg
  | fuel + 1 =>
    let tag := data.take 4
    if tag.length = 0 ∨ tag = [0, 0, 0, 0] then do
      checkTail (data.drop 4)
      pure st
    else if tag.length ≠ 4 then .error "Invalid savegame."
    else do
      let (st1, d1) ← processChunk fuel (bytesToString tag) st (data.drop 4)
      chunkLoop fuel st1 d1

/-- The chunk-stream part of `Savegame.read`, with enough fuel for any
input that does not nest empty STRUCT schemas pathologically. -/
def readChunks (st : SaveState) (data : List Nat) : Except String SaveState :=
  chunkLoop (data.length + 1) st data

/-! ### Basic lemmas about the modelled primitives -/

theorem readExact_ok {n : Nat} {data bs rest : List Nat}
    (h : readExact n data = .ok (bs, rest)) :
    bs.length = n ∧ data.length = n + rest.length := by
  unfold readExact at h
  split at h
  · cases h
    rename_i hle
    constructor
    · exact List.length_take_of_le hle
    · simp [Nat.add_comm]
      omega
  · cases h

theorem readExact_err {n : Nat} {data : List Nat} {e : String}
    (h : readExact n data = .error e) : e = eofMsg := by
  unfold readExact at h
  split at h
  · cases h
  · cases h
    rfl

theorem readUIntBE_ok {w : Nat} {data rest : List Nat} {v : Nat}
    (h : readUIntBE w data = .ok (v, rest)) :
    data.length = w + rest.length := by
  unfold readUIntBE at h
  cases hre : readExact w data with
  | error e => rw [hre] at h; cases h
  | ok p =>
    rw [hre] at h
    cases h
    exact (readExact_ok hre).2

theorem readUIntBE_err {w : Nat} {data : List Nat} {e : String}
    (h : readUIntBE w data = .error e) : e = eofMsg := by
  unfold readUIntBE at h
  cases hre : readExact w data with
  | error e' =>
    rw [hre] at h
    cases h
    exact readExact_err hre
  | ok p => rw [hre] at h; cases h

theorem gammaDec_ok {data rest : List Nat} {v g : Nat}
    (h : gammaDec data = .ok (v, g, rest)) :
    1 ≤ g ∧ data.length = g + rest.length := by
  unfold gammaDec at h
  cases h1 : readUIntBE 1 data with
  | error e => rw [h1] at h; cases h
  | ok p =>
    obtain ⟨b, r⟩ := p
    rw [h1] at h
    have hlen1 := readUIntBE_ok h1
    simp only [bind, Except.bind, pure, Except.pure] at h
    split at h
    · cases h; omega
    · split at h
      · cases h2 : readUIntBE 1 r with
        | error e => rw [h2] at h; cases h
        | ok q =>
          obtain ⟨x, r2⟩ := q
          rw [h2] at h
          simp only [bind, Except.bind, pure, Except.pure] at h
          cases h
          have h3 := readUIntBE_ok h2
          omega
      · split at h
        · cases h2 : readUIntBE 2 r with
          | error e => rw [h2] at h; cases h
          | ok q =>
            obtain ⟨x, r2⟩ := q
            rw [h2] at h
            simp only [bind, Except.bind, pure, Except.pure] at h
            cases h
            have h3 := readUIntBE_ok h2
            omega
        · split at h
          · cases h2 : readUIntBE 3 r with
            | error e => rw [h2] at h; cases h
            | ok q =>
              obtain ⟨x, r2⟩ := q
              rw [h2] at h
              simp only [bind, Except.bind, pure, Except.pure] at h
              cases h
              have h3 := readUIntBE_ok h2
              omega
          · cases h2 : readUIntBE 4 r with
            | error e => rw [h2] at h; cases h
            | ok q =>
              obtain ⟨x, r2⟩ := q
              rw [h2] at h
              simp only [bind, Except.bind, pure, Except.pure] at h
              cases h
              have h3 := readUIntBE_ok h2
              omega

theorem gammaDec_err {data : List Nat} {e : String}
    (h : gammaDec data = .error e) : e = eofMsg := by
  unfold gammaDec at h
  cases h1 : readUIntBE 1 data with
  | error e' =>
    rw [h1] at h
    cases h
    exact readUIntBE_err h1
  | ok p =>
    obtain ⟨b, r⟩ := p
    rw [h1] at h
    simp only [bind, Except.bind, pure, Except.pure] at h
    split at h
    · cases h
    · split at h
      · cases h2 : readUIntBE 1 r with
        | error e' => rw [h2] at h; cases h; exact readUIntBE_err h2
        | ok q => obtain ⟨x, r2⟩ := q; rw [h2] at h; cases h
      · split at h
        · cases h2 : readUIntBE 2 r with
          | error e' => rw [h2] at h; cases h; exact readUIntBE_err h2
          | ok q => obtain ⟨x, r2⟩ := q; rw [h2] at h; cases h
        · split at h
          · cases h2 : readUIntBE 3 r with
            | error e' => rw [h2] at h; cases h; exact readUIntBE_err h2
            | ok q => obtain ⟨x, r2⟩ := q; rw [h2] at h; cases h
          · cases h2 : readUIntBE 4 r with
            | error e' => rw [h2] at h; cases h; exact readUIntBE_err h2
            | ok q => obtain ⟨x, r2⟩ := q; rw [h2] at h; cases h

theorem bind_ok {α β : Type} {m : Except String α} {f : α → Except String β} {b : β}
    (h : (m >>= f) = .ok b) : ∃ a, m = .ok a ∧ f a = .ok b := by
  cases m with
  | error e => cases h
  | ok a => exact ⟨a, rfl, h⟩

theorem bind_err {α β : Type} {m : Except String α} {f : α → Except String β} {e : String}
    (h : (m >>= f) = .error e) : m = .error e ∨ ∃ a, m = .ok a ∧ f a = .error e := by
  cases m with
  | error e' =>
    left
    cases h
    rfl
  | ok a => exact .inr ⟨a, rfl, h⟩

theorem dictFind_dictInsert {α : Type} (k k' : String) (v : α) (m : List (String × α)) :
    dictFind k (dictInsert k' v m) = if k' = k then some v else dictFind k m := by
  induction m with
  | nil => simp [dictFind, dictInsert]
  | cons p t ih =>
    obtain ⟨k₀, v₀⟩ := p
    by_cases h0 : k₀ = k'
    · subst h0
      simp [dictFind, dictInsert]
      split <;> simp [dictFind, *]
    · simp only [dictInsert, if_neg h0]
      by_cases h1 : k₀ = k
      · subst h1
        have : ¬ (k' = k₀) := fun hc => h0 hc.symm
        simp [dictFind, this]
      · simp [dictFind, h1, ih]

/-! ### C2: schema-parser byte accounting -/

theorem readTableF_size : ∀ {fuel : Nat} {data : List Nat}
    {fields : List FieldDesc} {size : Nat} {rest : List Nat},
    readTableF fuel data = .ok (fields, size, rest) →
    size + rest.length = data.length := by
  intro fuel
  induction fuel with
  | zero => intro data fields size rest h; cases h
  | succ f ih =>
    intro data fields size rest h
    unfold readTableF at h
    obtain ⟨⟨t, r1⟩, h1, h⟩ := bind_ok h
    dsimp only at h
    have hl1 := readUIntBE_ok h1
    by_cases ht : t = 0
    · rw [if_pos ht] at h
      cases h
      simpa using hl1.symm
    · rw [if_neg ht] at h
      obtain ⟨⟨keyLength, indexSize, r2⟩, h2, h⟩ := bind_ok h
      dsimp only at h
      have hl2 := gammaDec_ok h2
      obtain ⟨⟨keyBytes, r3⟩, h3, h⟩ := bind_ok h
      dsimp only at h
      have hl3 := readExact_ok h3
      cases hft : fieldTypeOfNat (t &&& 0xf) with
      | none => rw [hft] at h; cases h
      | some ft =>
        rw [hft] at h
        obtain ⟨⟨fields', size', r4⟩, h4, h⟩ := bind_ok h
        dsimp only at h
        have hl4 := ih h4
        cases h
        omega

theorem readSubstructF_size : ∀ {fuel : Nat} {data : List Nat} {tables : Tables}
    {key : String} {fields : List FieldDesc} {tables' : Tables} {size : Nat}
    {rest : List Nat},
    readSubstructF fuel data tables key fields = .ok (tables', size, rest) →
    size + rest.length = data.length := by
  intro fuel
  induction fuel with
  | zero => intro data tables key fields tables' size rest h; cases h
  | succ f ih =>
    intro data tables key fields tables' size rest h
    unfold readSubstructF at h
    cases fields with
    | nil =>
      cases h
      simp
    | cons fld fs =>
      dsimp only at h
      by_cases hstruct : fld.ftype = .struct
      · rw [if_pos hstruct] at h
        obtain ⟨⟨subFields, subSize, r1⟩, h1, h⟩ := bind_ok h
        dsimp only at h
        have hl1 := readTableF_size h1
        obtain ⟨⟨tables2, size2, r2⟩, h2, h⟩ := bind_ok h
        dsimp only at h
        have hl2 := ih h2
        obtain ⟨⟨tables3, size3, r3⟩, h3, h⟩ := bind_ok h
        dsimp only at h
        have hl3 := ih h3
        cases h
        omega
      · rw [if_neg hstruct] at h
        exact ih h

theorem readAllTablesF_size {fuel : Nat} {data : List Nat} {tables : Tables}
    {size : Nat} {rest : List Nat}
    (h : readAllTablesF fuel data = .ok (tables, size, rest)) :
    size + rest.length = data.length := by
  unfold readAllTablesF at h
  obtain ⟨⟨rootFields, size1, r1⟩, h1, h⟩ := bind_ok h
  dsimp only at h
  have hl1 := readTableF_size h1
  obtain ⟨⟨tables2, subSize, r2⟩, h2, h⟩ := bind_ok h
  dsimp only at h
  have hl2 := readSubstructF_size h2
  cases h
  omega

theorem readSubstructF_keys : ∀ {fuel : Nat} {data : List Nat} {tables : Tables}
    {key : String} {fields : List FieldDesc} {tables' : Tables} {size : Nat}
    {rest : List Nat},
    readSubstructF fuel data tables key fields = .ok (tables', size, rest) →
    ∀ k, dictFind k tables' ≠ none →
      dictFind k tables ≠ none ∨
        ∃ (p : String) (fld : FieldDesc),
          FieldDesc.ftype fld = FieldType.struct ∧ k = p ++ "." ++ FieldDesc.name fld := by
  intro fuel
  induction fuel with
  | zero => intro data tables key fields tables' size rest h; cases h
  | succ f ih =>
    intro data tables key fields tables' size rest h
    unfold readSubstructF at h
    cases fields with
    | nil =>
      cases h
      intro k hk
      exact .inl hk
    | cons fld fs =>
      dsimp only at h
      by_cases hstruct : fld.ftype = .struct
      · rw [if_pos hstruct] at h
        obtain ⟨⟨subFields, subSize, r1⟩, h1, h⟩ := bind_ok h
        dsimp only at h
        obtain ⟨⟨tables2, size2, r2⟩, h2, h⟩ := bind_ok h
        dsimp only at h
        obtain ⟨⟨tables3, size3, r3⟩, h3, h⟩ := bind_ok h
        dsimp only at h
        cases h
        intro k hk
        rcases ih h3 k hk with hk3 | hdot
        · rcases ih h2 k hk3 with hk2 | hdot
          · rw [dictFind_dictInsert] at hk2
            by_cases hkey : key ++ "." ++ fld.name = k
            · exact .inr ⟨key, fld, hstruct, hkey.symm⟩
            · rw [if_neg hkey] at hk2
              exact .inl hk2
          · exact .inr hdot
        · exact .inr hdot
      · rw [if_neg hstruct] at h
        exact ih h

theorem readAllTablesF_keys {fuel : Nat} {data : List Nat} {tables : Tables}
    {size : Nat} {rest : List Nat}
    (h : readAllTablesF fuel data = .ok (tables, size, rest)) :
    ∀ k, dictFind k tables ≠ none →
      k = "root" ∨
        ∃ (p : String) (fld : FieldDesc),
          FieldDesc.ftype fld = FieldType.struct ∧ k = p ++ "." ++ FieldDesc.name fld := by
  unfold readAllTablesF at h
  obtain ⟨⟨rootFields, size1, r1⟩, h1, h⟩ := bind_ok h
  dsimp only at h
  obtain ⟨⟨tables2, subSize, r2⟩, h2, h⟩ := bind_ok h
  dsimp only at h
  cases h
  intro k hk
  rcases readSubstructF_keys h2 k hk with hk1 | hdot
  · left
    simp only [dictFind] at hk1
    by_cases hr : "root" = k
    · exact hr.symm
    · rw [if_neg hr] at hk1
      simp [dictFind] at hk1
  · exact .inr hdot

end Savegame

namespace Savegame

/-! ### Claim theorems -/

/-- C2: for every valid embedded schema byte sequence, `_read_table` reports a
consumed-byte count equal to the bytes actually consumed (per field
`1 + key_length + index_size`, plus 1 for the terminating zero byte), and
`read_all_tables` reports the total across the root table and all nested
STRUCT sub-tables, registering each sub-table under a dotted key
`parent_key ++ "." ++ field_name`. -/
theorem claim_C2_schema_accounting (fuel : Nat) (data : List Nat) :
    (∀ fields size rest, readTableF fuel data = .ok (fields, size, rest) →
        size + rest.length = data.length) ∧
    (∀ tables size rest, readAllTablesF fuel data = .ok (tables, size, rest) →
        size + rest.length = data.length ∧
        ∀ k, dictFind k tables ≠ none →
          k = "root" ∨ ∃ (p : String) (fld : FieldDesc),
            FieldDesc.ftype fld = FieldType.struct ∧
            k = p ++ "." ++ FieldDesc.name fld) := by
  refine ⟨fun fields size rest h => readTableF_size h, fun tables size rest h => ?_⟩
  exact ⟨readAllTablesF_size h, readAllTablesF_keys h⟩

/-- Witness for C2 on the concrete schema `{s: STRUCT {a: U8}}`:
8 bytes declared, 8 bytes consumed, sub-table registered at `"root.s"`. -/
theorem claim_C2_witness :
    ((8 : Nat) + ([] : List Nat).length = ([11,1,115,0,2,1,97,0] : List Nat).length) ∧
    ("root.s" = "root" ∨ ∃ (p : String) (fld : FieldDesc),
        FieldDesc.ftype fld = FieldType.struct ∧
        "root.s" = p ++ "." ++ FieldDesc.name fld) := by
  have h := (claim_C2_schema_accounting 9 [11,1,115,0,2,1,97,0]).2
      [("root", [⟨FieldType.struct, false, "s"⟩]), ("root.s", [⟨FieldType.u8, false, "a"⟩])]
      8 [] rfl
  exact ⟨h.1, h.2 "root.s" (by decide)⟩

end Savegame

namespace Savegame

/-! ### C3: record/schema key consistency -/

/-- Modelled from the spec (refinement reference): `decode_record` — for each
field descriptor in declaration order, decode one value from the front of the
remaining bytes and append `(name, value)` to the result mapping. -/
def decodeRecordSpec (fuel : Nat) (fields : List FieldDesc) (data : List Nat)
    (tables : Tables) (key : String) :
    Except String (List (String × Value) × List Nat) :=
  match fuel with
  | 0 => .error fuelMsg
  | fuel + 1 =>
    match fields with
    | [] => pure ([], data)
    | fld :: rest => do
      let (v, d1) ← readFieldF fuel data tables fld.ftype fld.isList fld.name key
      let (m, d2) ← decodeRecordSpec fuel rest d1 tables key
      pure ((fld.name, v) :: m, d2)

theorem dictInsert_fresh {α : Type} (k : String) (v : α) (m : List (String × α))
    (h : k ∉ m.map Prod.fst) : dictInsert k v m = m ++ [(k, v)] := by
  induction m with
  | nil => rfl
  | cons p t ih =>
    obtain ⟨k₀, v₀⟩ := p
    simp only [List.map_cons, List.mem_cons] at h
    push_neg at h
    obtain ⟨hne, hmem⟩ := h
    have hne' : ¬ (k₀ = k) := fun hc => hne hc.symm
    simp only [dictInsert, if_neg hne', List.cons_append, List.cons.injEq, true_and]
    exact ih hmem

theorem decodeRecordSpec_keys : ∀ {fuel : Nat} {fields : List FieldDesc}
    {data : List Nat} {tables : Tables} {key : String}
    {result : List (String × Value)} {rest : List Nat},
    decodeRecordSpec fuel fields data tables key = .ok (result, rest) →
    result.map Prod.fst = fields.map FieldDesc.name := by
  intro fuel
  induction fuel with
  | zero => intro fields data tables key result rest h; cases h
  | succ f ih =>
    intro fields data tables key result rest h
    unfold decodeRecordSpec at h
    cases fields with
    | nil =>
      cases h
      rfl
    | cons fld fs =>
      obtain ⟨⟨v, d1⟩, h1, h⟩ := bind_ok h
      dsimp only at h
      obtain ⟨⟨m, d2⟩, h2, h⟩ := bind_ok h
      dsimp only at h
      cases h
      simp [ih h2]

theorem readFieldsF_eq_spec : ∀ {fuel : Nat} {fields : List FieldDesc}
    {data : List Nat} {tables : Tables} {key : String}
    {acc : List (String × Value)},
    (∀ fld ∈ fields, FieldDesc.name fld ∉ acc.map Prod.fst) →
    (fields.map FieldDesc.name).Nodup →
    readFieldsF fuel fields data tables key acc =
      Except.map (fun p => (acc ++ p.1, p.2)) (decodeRecordSpec fuel fields data tables key) := by
  intro fuel
  induction fuel with
  | zero => intro fields data tables key acc _ _; rfl
  | succ f ih =>
    intro fields data tables key acc hdisj hnd
    cases fields with
    | nil =>
      simp [readFieldsF, decodeRecordSpec, Except.map, pure, Except.pure]
    | cons fld fs =>
      unfold readFieldsF decodeRecordSpec
      simp only [bind, Except.bind]
      simp only [List.map_cons, List.nodup_cons] at hnd
      cases h1 : readFieldF f data tables fld.ftype fld.isList fld.name key with
      | error e => simp [Except.map]
      | ok p =>
        obtain ⟨v, d1⟩ := p
        dsimp only
        have hfresh : FieldDesc.name fld ∉ acc.map Prod.fst :=
          hdisj fld (List.mem_cons_self fld fs)
        have hins := dictInsert_fresh fld.name v acc hfresh
        rw [hins]
        have hdisj' : ∀ g ∈ fs, FieldDesc.name g ∉ (acc ++ [(fld.name, v)]).map Prod.fst := by
          intro g hg
          simp only [List.map_append, List.mem_append, List.map_cons, List.map_nil,
            List.mem_singleton]
          rintro (hmem | hname)
          · exact hdisj g (List.mem_cons_of_mem fld hg) hmem
          · exact hnd.1 (hname ▸ List.mem_map_of_mem FieldDesc.name hg)
        rw [ih hdisj' hnd.2]
        cases hspec : decodeRecordSpec f fs d1 tables key with
        | error e => simp [Except.map]
        | ok q =>
          obtain ⟨m, d2⟩ := q
          simp [Except.map, pure, Except.pure, List.append_assoc]

end Savegame

namespace Savegame

/-- C3 (counterexample): under a schema whose two fields share the name
`"a"`, `_read_item` returns a mapping with a single key (Python dict
assignment overwrites), not one key per schema field. -/
theorem claim_C3_counterexample :
    readItemRecF 5 [5, 6]
        [("root", [⟨FieldType.u8, false, "a"⟩, ⟨FieldType.u8, false, "a"⟩])] "root" =
      .ok ([("a", Value.int 6)], []) ∧
    ([("a", Value.int 6)] : List (String × Value)).length ≠
      ([⟨FieldType.u8, false, "a"⟩, ⟨FieldType.u8, false, "a"⟩] : List FieldDesc).length :=
  ⟨rfl, by decide⟩

/-- C3 (amended): for every record decoded under a schema key whose schema has
N fields with pairwise-distinct names, `_read_item` agrees with the
spec-side per-field decoder (each value decoded from the front of the bytes
remaining after the preceding fields, left to right), and the result mapping
has exactly the N field names as keys, in schema declaration order. -/
theorem claim_C3_record_keys (fuel : Nat) (data : List Nat) (tables : Tables)
    (key : String) (fields : List FieldDesc)
    (hf : dictFind key tables = some fields)
    (hnd : (fields.map FieldDesc.name).Nodup) :
    readItemRecF (fuel + 1) data tables key = decodeRecordSpec fuel fields data tables key ∧
    (∀ result rest, readItemRecF (fuel + 1) data tables key = .ok (result, rest) →
      result.map Prod.fst = fields.map FieldDesc.name) := by
  have heq : readItemRecF (fuel + 1) data tables key =
      readFieldsF fuel fields data tables key [] := by
    unfold readItemRecF
    rw [hf]
  have hspec := @readFieldsF_eq_spec fuel fields data tables key [] (by simp) hnd
  have hmain : readItemRecF (fuel + 1) data tables key =
      decodeRecordSpec fuel fields data tables key := by
    rw [heq, hspec]
    cases h : decodeRecordSpec fuel fields data tables key with
    | error e => simp [Except.map]
    | ok q => simp [Except.map]
  refine ⟨hmain, ?_⟩
  intro result rest h
  rw [hmain] at h
  exact decodeRecordSpec_keys h

/-- Witness for C3 (amended) on a 2-field schema `{a: U8, b: U8}` decoding
`[5, 6]`. -/
theorem claim_C3_witness :
    ([("a", Value.int 5), ("b", Value.int 6)] : List (String × Value)).map Prod.fst =
      ([⟨FieldType.u8, false, "a"⟩, ⟨FieldType.u8, false, "b"⟩] : List FieldDesc).map
        FieldDesc.name :=
  (claim_C3_record_keys 4 [5, 6]
      [("root", [⟨FieldType.u8, false, "a"⟩, ⟨FieldType.u8, false, "b"⟩])] "root"
      [⟨FieldType.u8, false, "a"⟩, ⟨FieldType.u8, false, "b"⟩] rfl (by decide)).2
      [("a", Value.int 5), ("b", Value.int 6)] [] rfl

end Savegame

namespace Savegame

/-! ### C4: list fields -/

theorem readListF_length : ∀ {fuel n : Nat} {data : List Nat} {tables : Tables}
    {ft : FieldType} {fieldName key : String} {vs : List Value} {rest : List Nat},
    readListF fuel n data tables ft fieldName key = .ok (vs, rest) →
    vs.length = n := by
  intro fuel
  induction fuel with
  | zero => intro n data tables ft fieldName key vs rest h; cases h
  | succ f ih =>
    intro n data tables ft fieldName key vs rest h
    unfold readListF at h
    cases n with
    | zero =>
      cases h
      rfl
    | succ n =>
      obtain ⟨⟨v, d1⟩, h1, h⟩ := bind_ok h
      dsimp only at h
      obtain ⟨⟨vs', d2⟩, h2, h⟩ := bind_ok h
      dsimp only at h
      cases h
      simp [ih h2]

/-- C4: a field marked as a list whose kind is not STRING is decoded as a
gamma count L followed by exactly L values of the declared kind back-to-back
(each by the non-list decode rule of `read_field`), the result being a list
of length L; a STRING field marked as a list is decoded by the plain string
scalar reader, with no gamma count. -/
theorem claim_C4_list_fields (fuel : Nat) (data : List Nat) (tables : Tables)
    (ft : FieldType) (fieldName key : String) :
    (∀ v rest, ft ≠ FieldType.strkind →
      readFieldF (fuel + 1) data tables ft true fieldName key = .ok (v, rest) →
      ∃ L d1 vs, readGammaP data = .ok (L, d1) ∧
        readListF fuel L d1 tables ft fieldName key = .ok (vs, rest) ∧
        v = Value.list vs ∧ vs.length = L) ∧
    readFieldF (fuel + 1) data tables FieldType.strkind true fieldName key =
      scalarReader FieldType.strkind data := by
  constructor
  · intro v rest hft h
    unfold readFieldF at h
    rw [if_pos ⟨rfl, hft⟩] at h
    obtain ⟨⟨L, d1⟩, h1, h⟩ := bind_ok h
    dsimp only at h
    obtain ⟨⟨vs, d2⟩, h2, h⟩ := bind_ok h
    dsimp only at h
    cases h
    exact ⟨L, d1, vs, h1, h2, rfl, readListF_length h2⟩
  · unfold readFieldF
    rw [if_neg (fun hc => hc.2 rfl)]
    rw [if_neg (by decide : ¬ FieldType.strkind = FieldType.struct)]

/-- Witness for C4: a U8 list field over bytes `[2, 7, 8]` (gamma count 2,
then scalars 7 and 8) decodes to a 2-element list. -/
theorem claim_C4_witness :
    ∃ L d1 vs, readGammaP [2, 7, 8] = .ok (L, d1) ∧
      readListF 3 L d1 [] FieldType.u8 "a" "root" = .ok (vs, []) ∧
      Value.list [Value.int 7, Value.int 8] = Value.list vs ∧ vs.length = L :=
  (claim_C4_list_fields 3 [2, 7, 8] [] FieldType.u8 "a" "root").1
    (Value.list [Value.int 7, Value.int 8]) [] (by decide) rfl

end Savegame

namespace Savegame

/-- C6: after decoding one record of a schema-bearing chunk, `read_item`
raises "Junk at end of chunk" iff undecoded bytes remain and the tag is not
one of the two allow-listed tags `GSDT`/`AIPL`; otherwise the decoded item is
stored (leftover bytes of allow-listed tags are silently ignored). -/
theorem claim_C6_trailing_junk (fuel : Nat) (tag : String) (tables : Tables)
    (index : Int) (data : List Nat) (st : SaveState) (item : List (String × Value))
    (rest : List Nat)
    (htab : tables ≠ [])
    (hrec : readItemRecF fuel data tables "root" = .ok (item, rest)) :
    (readItem fuel tag tables index data st = .error ("Junk at end of chunk " ++ tag) ↔
      rest ≠ [] ∧ tag ≠ "GSDT" ∧ tag ≠ "AIPL") ∧
    ((rest = [] ∨ tag = "GSDT" ∨ tag = "AIPL") →
      readItem fuel tag tables index data st =
        .ok (insertItem tag (if index = -1 then "0" else toString index)
          (Value.dict item) st)) := by
  unfold readItem
  have hne : ¬ (tables.isEmpty = true) := by
    simpa [List.isEmpty_iff] using htab
  rw [if_neg hne]
  simp only [bind, Except.bind]
  rw [hrec]
  dsimp only
  by_cases h1 : tag ≠ "GSDT" ∧ tag ≠ "AIPL"
  · rw [if_pos h1]
    by_cases h2 : rest = []
    · subst h2
      rw [if_neg (by simp)]
      constructor
      · simp [pure, Except.pure]
      · intro _
        simp [pure, Except.pure]
    · rw [if_pos (by simpa using h2)]
      constructor
      · constructor
        · intro _
          exact ⟨h2, h1⟩
        · intro _
          rfl
      · intro hc
        rcases hc with hc | hc | hc
        · exact absurd hc h2
        · exact absurd hc h1.1
        · exact absurd hc h1.2
  · rw [if_neg h1]
    constructor
    · simp only [pure, Except.pure]
      constructor
      · intro hc
        cases hc
      · intro hc
        exact absurd ⟨hc.2.1, hc.2.2⟩ h1
    · intro _
      simp [pure, Except.pure]

/-- Witness for C6: a 1-field U8 schema over `[7, 9]` leaves byte 9 undecoded,
so a non-allow-listed tag fails with the junk error. -/
theorem claim_C6_witness :
    readItem 5 "ABCD" [("root", [⟨FieldType.u8, false, "a"⟩])] 0 [7, 9] initState =
      .error ("Junk at end of chunk " ++ "ABCD") :=
  (claim_C6_trailing_junk 5 "ABCD" [("root", [⟨FieldType.u8, false, "a"⟩])] 0 [7, 9]
      initState [("a", Value.int 7)] [9] (by decide) rfl).1.mpr
    ⟨by decide, by decide, by decide⟩

end Savegame

namespace Savegame

theorem chunkLoop_succ (f : Nat) (st : SaveState) (data : List Nat) :
    chunkLoop (f + 1) st data =
      (let tag := data.take 4
       if tag.length = 0 ∨ tag = [0, 0, 0, 0] then do
         checkTail (data.drop 4)
         pure st
       else if tag.length ≠ 4 then .error "Invalid savegame."
       else do
         let (st1, d1) ← processChunk f (bytesToString tag) st (data.drop 4)
         chunkLoop f st1 d1) := rfl

/-- C7: the chunk loop terminates exactly on a zero-length tag read (EOF) or
the all-zero tag; a stream ending right there decodes successfully, and any
readable byte after the terminal point fails with "Junk at the end of file.";
a non-terminal tag processes a chunk and loops. -/
theorem claim_C7_terminal_detection (st : SaveState) :
    readChunks st [] = .ok st ∧
    readChunks st [0, 0, 0, 0] = .ok st ∧
    (∀ b rest, readChunks st (0 :: 0 :: 0 :: 0 :: b :: rest) =
      .error "Junk at the end of file.") ∧
    (∀ t1 t2 t3 t4 rest, ¬ (t1 = 0 ∧ t2 = 0 ∧ t3 = 0 ∧ t4 = 0) →
      readChunks st (t1 :: t2 :: t3 :: t4 :: rest) = do
        let (st1, d1) ← processChunk (rest.length + 4)
          (bytesToString [t1, t2, t3, t4]) st rest
        chunkLoop (rest.length + 4) st1 d1) := by
  refine ⟨rfl, rfl, ?_, ?_⟩
  · intro b rest
    show chunkLoop _ st _ = _
    unfold chunkLoop
    simp [checkTail, readUIntBE, readExact, bind, Except.bind, pure, Except.pure]
  intro t1 t2 t3 t4 rest hne
  show chunkLoop ((t1 :: t2 :: t3 :: t4 :: rest).length + 1) st _ = _
  rw [chunkLoop_succ]
  have htag : (t1 :: t2 :: t3 :: t4 :: rest).take 4 = [t1, t2, t3, t4] := rfl
  have hdrop : (t1 :: t2 :: t3 :: t4 :: rest).drop 4 = rest := rfl
  have hlen : (t1 :: t2 :: t3 :: t4 :: rest).length = rest.length + 4 := by
    simp only [List.length_cons]
  simp only [htag, hdrop, hlen]
  have hc1 : ¬ (([t1, t2, t3, t4] : List Nat).length = 0 ∨
      [t1, t2, t3, t4] = ([0, 0, 0, 0] : List Nat)) := by
    rintro (hc | hc)
    · simp at hc
    · simp only [List.cons.injEq, and_true] at hc
      exact hne ⟨hc.1, hc.2.1, hc.2.2.1, hc.2.2.2⟩
  rw [if_neg hc1, if_neg (by simp : ¬ ([t1, t2, t3, t4] : List Nat).length ≠ 4)]

/-- Witness for C7: for a concrete non-zero tag `"AAAA"` followed by an empty
rest the loop takes the processing branch (and fails at the missing header
byte), and the closed terminal cases hold for the empty state. -/
theorem claim_C7_witness :
    readChunks initState [] = .ok initState ∧
    readChunks initState [0, 0, 0, 0, 9] = .error "Junk at the end of file." ∧
    readChunks initState [65, 65, 65, 65] = (do
      let (st1, d1) ← processChunk 4 (bytesToString [65, 65, 65, 65]) initState []
      chunkLoop 4 st1 d1) :=
  ⟨(claim_C7_terminal_detection initState).1,
   (claim_C7_terminal_detection initState).2.2.1 9 [],
   (claim_C7_terminal_detection initState).2.2.2 65 65 65 65 [] (by decide)⟩

end Savegame

namespace Savegame

/-! ### C8 / C10: the SLXI extension chunk -/

/-- Reference fold: store `vs` at consecutive ordinal string indices starting
at `idx` (what the SLXI item loop does to the item store). -/
def slxiStore (tag : String) : Nat → List Value → SaveState → SaveState
  | _, [], st => st
  | idx, v :: vs, st => slxiStore tag (idx + 1) vs (insertItem tag (toString idx) v st)

theorem slxiLoop_items : ∀ {n idx : Nat} {tag : String} {st : SaveState}
    {d : List Nat} {st' : SaveState} {rest : List Nat},
    slxiLoop tag n idx st d = .ok (st', rest) →
    ∃ vs : List Value, vs.length = n ∧ st' = slxiStore tag idx vs st := by
  intro n
  induction n with
  | zero =>
    intro idx tag st d st' rest h
    cases h
    exact ⟨[], rfl, rfl⟩
  | succ m ih =>
    intro idx tag st d st' rest h
    unfold slxiLoop at h
    obtain ⟨⟨item, d1⟩, h1, h⟩ := bind_ok h
    dsimp only at h
    obtain ⟨vs, hlen, hst⟩ := ih h
    exact ⟨item :: vs, by simp [hlen], hst⟩

/-- C8: `read_slxi` with a nonzero version word, or a zero version and a
nonzero flags word, records only the unsupported placeholder and parses no
items; with both words zero it reads a 4-byte item count `n` and parses
exactly `n` items, each stored at a string index equal to its ordinal
position. -/
theorem claim_C8_slxi_gating :
    (∀ (tag : String) (data : List Nat) (st : SaveState) (v : Nat) (d1 : List Nat),
      readUIntBE 4 data = .ok (v, d1) → v ≠ 0 →
      readSlxi tag data st =
        .ok { st with tables := dictInsert tag TablesEntry.unsupported st.tables }) ∧
    (∀ (tag : String) (data : List Nat) (st : SaveState) (d1 : List Nat) (f : Nat)
        (d2 : List Nat),
      readUIntBE 4 data = .ok (0, d1) → readUIntBE 4 d1 = .ok (f, d2) → f ≠ 0 →
      readSlxi tag data st =
        .ok { st with tables := dictInsert tag TablesEntry.unsupported st.tables }) ∧
    (∀ (tag : String) (data : List Nat) (st : SaveState) (d1 d2 : List Nat) (n : Nat)
        (d3 : List Nat),
      readUIntBE 4 data = .ok (0, d1) → readUIntBE 4 d1 = .ok (0, d2) →
      readUIntBE 4 d2 = .ok (n, d3) →
      readSlxi tag data st = (do
        let (st2, _) ← slxiLoop tag n 0
          { st with tables :=
              dictInsert tag TablesEntry.slxi (dictInsert tag TablesEntry.unsupported st.tables) }
          d3
        pure st2)) ∧
    (∀ (tag : String) (n idx : Nat) (st : SaveState) (d : List Nat) (st' : SaveState)
        (rest : List Nat),
      slxiLoop tag n idx st d = .ok (st', rest) →
      ∃ vs : List Value, vs.length = n ∧ st' = slxiStore tag idx vs st) := by
  refine ⟨?_, ?_, ?_, fun tag n idx st d st' rest h => slxiLoop_items h⟩
  · intro tag data st v d1 h hv
    unfold readSlxi
    simp only [bind, Except.bind]
    rw [h]
    dsimp only
    rw [if_pos (Nat.pos_of_ne_zero hv)]
    rfl
  · intro tag data st d1 f d2 h1 h2 hf
    unfold readSlxi
    simp only [bind, Except.bind]
    rw [h1]
    dsimp only
    rw [if_neg (by simp)]
    rw [h2]
    dsimp only
    rw [if_pos hf]
    rfl
  · intro tag data st d1 d2 n d3 h1 h2 h3
    unfold readSlxi
    simp only [bind, Except.bind]
    rw [h1]
    dsimp only
    rw [if_neg (by simp)]
    rw [h2]
    dsimp only
    rw [if_neg (by simp)]
    rw [h3]

/-- Witness for C8: version word `00 00 00 01` gives only the unsupported
placeholder, and a 1-item zero-version zero-flags loop stores the item at
ordinal index `"0"`. -/
theorem claim_C8_witness :
    readSlxi "SLXI" [0, 0, 0, 1] initState =
      .ok { initState with
        tables := dictInsert "SLXI" TablesEntry.unsupported initState.tables } ∧
    ∃ vs : List Value, vs.length = 1 ∧
      slxiStore "SLXI" 0 vs initState =
        insertItem "SLXI" "0"
          (Value.dict [("name", Value.str "x"), ("version", Value.int 0),
            ("flags", Value.list [])]) initState :=
  ⟨claim_C8_slxi_gating.1 "SLXI" [0, 0, 0, 1] initState 1 [] rfl (by decide),
   by
    obtain ⟨vs, hlen, hst⟩ := claim_C8_slxi_gating.2.2.2 "SLXI" 1 0 initState
      [0, 0, 0, 0, 0, 0, 1, 120]
      (insertItem "SLXI" "0"
        (Value.dict [("name", Value.str "x"), ("version", Value.int 0),
          ("flags", Value.list [])]) initState) [] rfl
    exact ⟨vs, hlen, hst.symm⟩⟩

end Savegame

namespace Savegame

theorem readGammaP_err {data : List Nat} {e : String}
    (h : readGammaP data = .error e) : e = eofMsg := by
  unfold readGammaP at h
  rcases bind_err h with h1 | ⟨⟨v, g, r⟩, h1, h2⟩
  · exact gammaDec_err h1
  · dsimp only at h2
    cases h2

theorem readStringP_err {data : List Nat} {e : String}
    (h : readStringP data = .error e) : e = eofMsg := by
  unfold readStringP at h
  rcases bind_err h with h1 | ⟨⟨n, r1⟩, h1, h2⟩
  · exact readGammaP_err h1
  · dsimp only at h2
    rcases bind_err h2 with h3 | ⟨⟨bs, r2⟩, h3, h4⟩
    · exact readExact_err h3
    · dsimp only at h4
      cases h4

theorem slxiItemP_err {data : List Nat} {e : String}
    (h : slxiItemP data = .error e) : e = eofMsg := by
  unfold slxiItemP at h
  rcases bind_err h with h1 | ⟨⟨flags, d1⟩, h1, h⟩
  · exact readUIntBE_err h1
  dsimp only at h
  rcases bind_err h with h2 | ⟨⟨version, d2⟩, h2, h⟩
  · exact readUIntBE_err h2
  dsimp only at h
  rcases bind_err h with h3 | ⟨⟨name, d3⟩, h3, h⟩
  · exact readStringP_err h3
  dsimp only at h
  by_cases hb4 : flags &&& 4 ≠ 0
  · rw [if_pos hb4] at h
    rcases bind_err h with h4 | ⟨⟨sz, d4⟩, h4, h⟩
    · exact readUIntBE_err h4
    dsimp only at h
    rcases bind_err h with h5 | ⟨⟨item1, d5⟩, h5, h⟩
    · cases h5
    dsimp only at h
    by_cases hb8 : flags &&& 8 ≠ 0
    · rw [if_pos hb8] at h
      rcases bind_err h with h6 | ⟨⟨cnt, d6⟩, h6, h⟩
      · exact readUIntBE_err h6
      dsimp only at h
      rcases bind_err h with h7 | ⟨⟨item2, d7⟩, h7, h⟩
      · cases h7
      dsimp only at h
      cases h
    · rw [if_neg hb8] at h
      rcases bind_err h with h6 | ⟨⟨item2, d7⟩, h6, h⟩
      · cases h6
      dsimp only at h
      cases h
  · rw [if_neg hb4] at h
    rcases bind_err h with h4 | ⟨⟨item1, d5⟩, h4, h⟩
    · cases h4
    dsimp only at h
    by_cases hb8 : flags &&& 8 ≠ 0
    · rw [if_pos hb8] at h
      rcases bind_err h with h6 | ⟨⟨cnt, d6⟩, h6, h⟩
      · exact readUIntBE_err h6
      dsimp only at h
      rcases bind_err h with h7 | ⟨⟨item2, d7⟩, h7, h⟩
      · cases h7
      dsimp only at h
      cases h
    · rw [if_neg hb8] at h
      rcases bind_err h with h6 | ⟨⟨item2, d7⟩, h6, h⟩
      · cases h6
      dsimp only at h
      cases h

theorem slxiLoop_err : ∀ {n idx : Nat} {tag : String} {st : SaveState}
    {d : List Nat} {e : String},
    slxiLoop tag n idx st d = .error e → e = eofMsg := by
  intro n
  induction n with
  | zero => intro idx tag st d e h; cases h
  | succ m ih =>
    intro idx tag st d e h
    unfold slxiLoop at h
    rcases bind_err h with h1 | ⟨⟨item, d1⟩, h1, h2⟩
    · exact slxiItemP_err h1
    · dsimp only at h2
      exact ih h2

theorem readSlxi_err {tag : String} {data : List Nat} {st : SaveState} {e : String}
    (h : readSlxi tag data st = .error e) : e = eofMsg := by
  unfold readSlxi at h
  rcases bind_err h with h1 | ⟨⟨v, d1⟩, h1, h⟩
  · exact readUIntBE_err h1
  dsimp only at h
  split at h
  · cases h
  rcases bind_err h with h2 | ⟨⟨f, d2⟩, h2, h⟩
  · exact readUIntBE_err h2
  dsimp only at h
  split at h
  · cases h
  rcases bind_err h with h3 | ⟨⟨n, d3⟩, h3, h⟩
  · exact readUIntBE_err h3
  dsimp only at h
  rcases bind_err h with h4 | ⟨⟨st2, leftover⟩, h4, h⟩
  · exact slxiLoop_err h4
  · dsimp only at h
    cases h

/-- C10: leftover bytes inside an SLXI payload never raise a trailing-data
validation failure: `read_slxi` can only fail with the primitive
end-of-data error (never "Junk at end of chunk"/"Junk at the end of file."),
and once the item loop has parsed its `item_count` items the remaining bytes
are discarded without inspection. -/
theorem claim_C10_slxi_ignores_leftover :
    (∀ (tag : String) (data : List Nat) (st : SaveState),
      readSlxi tag data st ≠ .error ("Junk at end of chunk " ++ tag) ∧
      readSlxi tag data st ≠ .error "Junk at the end of file.") ∧
    (∀ (tag : String) (data : List Nat) (st : SaveState) (d1 d2 : List Nat) (n : Nat)
        (d3 : List Nat) (st2 : SaveState) (leftover : List Nat),
      readUIntBE 4 data = .ok (0, d1) → readUIntBE 4 d1 = .ok (0, d2) →
      readUIntBE 4 d2 = .ok (n, d3) →
      slxiLoop tag n 0
          { st with tables :=
              dictInsert tag TablesEntry.slxi (dictInsert tag TablesEntry.unsupported st.tables) }
          d3 = .ok (st2, leftover) →
      readSlxi tag data st = .ok st2) := by
  constructor
  · intro tag data st
    constructor
    · intro h
      have he := readSlxi_err h
      have hd := congrArg String.data he
      rw [String.data_append] at hd
      simp [eofMsg] at hd
    · intro h
      have he := readSlxi_err h
      simp [eofMsg] at he
  · intro tag data st d1 d2 n d3 st2 leftover h1 h2 h3 h4
    unfold readSlxi
    simp only [bind, Except.bind]
    rw [h1]
    dsimp only
    rw [if_neg (by simp)]
    rw [h2]
    dsimp only
    rw [if_neg (by simp)]
    rw [h3]
    dsimp only
    rw [h4]
    rfl

/-- Witness for C10: a zero-version, zero-flags, zero-item SLXI payload with
three junk bytes after the item list decodes successfully, the junk ignored. -/
theorem claim_C10_witness :
    readSlxi "SLXI" [0, 0, 0, 0, 0, 0, 0, 0, 0, 0, 0, 0, 7, 8, 9] initState =
      .ok { initState with
        tables :=
          dictInsert "SLXI" TablesEntry.slxi
            (dictInsert "SLXI" TablesEntry.unsupported initState.tables) } :=
  claim_C10_slxi_ignores_leftover.2 "SLXI"
    [0, 0, 0, 0, 0, 0, 0, 0, 0, 0, 0, 0, 7, 8, 9] initState
    [0, 0, 0, 0, 0, 0, 0, 0, 7, 8, 9] [0, 0, 0, 0, 7, 8, 9] 0 [7, 8, 9]
    { initState with
      tables :=
        dictInsert "SLXI" TablesEntry.slxi
          (dictInsert "SLXI" TablesEntry.unsupported initState.tables) }
    [7, 8, 9] rfl rfl rfl rfl

end Savegame

namespace Savegame

/-! ### C1: error classification for the record decoder -/

/-- The errors the record-decoding family can produce (everything except the
validation failures of `read_item` and the dispatcher). -/
def itemErrP (e : String) : Prop :=
  e = fuelMsg ∨ e = eofMsg ∨ e = "No scalar reader for STRUCT." ∨
    ∃ k : String, e = "Unknown table key " ++ k ++ "."

theorem readFixed_err {w : Nat} {signed : Bool} {data : List Nat} {e : String}
    (h : readFixed w signed data = .error e) : e = eofMsg := by
  unfold readFixed at h
  rcases bind_err h with h1 | ⟨⟨u, rest⟩, h1, h2⟩
  · exact readUIntBE_err h1
  · dsimp only at h2
    split at h2 <;> cases h2

theorem scalarReader_err {ft : FieldType} {data : List Nat} {e : String}
    (h : scalarReader ft data = .error e) :
    e = eofMsg ∨ e = "No scalar reader for STRUCT." := by
  cases ft <;> simp only [scalarReader] at h
  case strkind =>
    rcases bind_err h with h1 | ⟨⟨s, rest⟩, h1, h2⟩
    · exact .inl (readStringP_err h1)
    · dsimp only at h2
      cases h2
  case struct =>
    cases h
    exact .inr rfl
  all_goals exact .inl (readFixed_err h)

theorem itemFamily_err : ∀ fuel : Nat,
    (∀ data tables key e, readItemRecF fuel data tables key = .error e → itemErrP e) ∧
    (∀ fields data tables key acc e,
      readFieldsF fuel fields data tables key acc = .error e → itemErrP e) ∧
    (∀ data tables ft il fn key e,
      readFieldF fuel data tables ft il fn key = .error e → itemErrP e) ∧
    (∀ n data tables ft fn key e,
      readListF fuel n data tables ft fn key = .error e → itemErrP e) := by
  intro fuel
  induction fuel with
  | zero =>
    refine ⟨?_, ?_, ?_, ?_⟩
    · intro data tables key e h
      cases h
      exact .inl rfl
    · intro fields data tables key acc e h
      cases h
      exact .inl rfl
    · intro data tables ft il fn key e h
      cases h
      exact .inl rfl
    · intro n data tables ft fn key e h
      cases h
      exact .inl rfl
  | succ f ih =>
    obtain ⟨ih1, ih2, ih3, ih4⟩ := ih
    refine ⟨?_, ?_, ?_, ?_⟩
    · intro data tables key e h
      unfold readItemRecF at h
      cases hf : dictFind key tables with
      | none =>
        rw [hf] at h
        cases h
        exact .inr (.inr (.inr ⟨key, rfl⟩))
      | some fields =>
        rw [hf] at h
        exact ih2 fields data tables key [] e h
    · intro fields data tables key acc e h
      unfold readFieldsF at h
      cases fields with
      | nil => cases h
      | cons fld fs =>
        rcases bind_err h with h1 | ⟨⟨v, d1⟩, h1, h2⟩
        · exact ih3 data tables fld.ftype fld.isList fld.name key e h1
        · dsimp only at h2
          exact ih2 fs d1 tables key (dictInsert fld.name v acc) e h2
    · intro data tables ft il fn key e h
      unfold readFieldF at h
      by_cases hl : il ∧ ft ≠ FieldType.strkind
      · rw [if_pos hl] at h
        rcases bind_err h with h1 | ⟨⟨len, d1⟩, h1, h2⟩
        · exact .inr (.inl (readGammaP_err h1))
        · dsimp only at h2
          rcases bind_err h2 with h3 | ⟨⟨vs, d2⟩, h3, h4⟩
          · exact ih4 len d1 tables ft fn key e h3
          · dsimp only at h4
            cases h4
      · rw [if_neg hl] at h
        by_cases hs : ft = FieldType.struct
        · rw [if_pos hs] at h
          rcases bind_err h with h1 | ⟨⟨m, d1⟩, h1, h2⟩
          · exact ih1 data tables (key ++ "." ++ fn) e h1
          · dsimp only at h2
            cases h2
        · rw [if_neg hs] at h
          rcases scalarReader_err h with he | he
          · exact .inr (.inl he)
          · exact .inr (.inr (.inl he))
    · intro n data tables ft fn key e h
      unfold readListF at h
      cases n with
      | zero => cases h
      | succ m =>
        rcases bind_err h with h1 | ⟨⟨v, d1⟩, h1, h2⟩
        · exact ih3 data tables ft false fn key e h1
        · dsimp only at h2
          rcases bind_err h2 with h3 | ⟨⟨vs, d2⟩, h3, h4⟩
          · exact ih4 m d1 tables ft fn key e h3
          · dsimp only at h4
            cases h4

theorem readItem_err {fuel : Nat} {tag : String} {tables : Tables} {index : Int}
    {data : List Nat} {st : SaveState} {e : String}
    (h : readItem fuel tag tables index data st = .error e) :
    itemErrP e ∨ e = "Junk at end of chunk " ++ tag := by
  unfold readItem at h
  dsimp only at h
  by_cases hemp : tables.isEmpty = true
  · rw [if_pos hemp] at h
    cases h
  · rw [if_neg hemp] at h
    rcases bind_err h with h1 | ⟨⟨item, rest⟩, h1, h2⟩
    · exact .inl ((itemFamily_err fuel).1 data tables "root" e h1)
    · dsimp only at h2
      by_cases htag : tag ≠ "GSDT" ∧ tag ≠ "AIPL"
      · rw [if_pos htag] at h2
        by_cases hrest : rest.length ≠ 0
        · rw [if_pos hrest] at h2
          cases h2
          exact .inr rfl
        · rw [if_neg hrest] at h2
          cases h2
      · rw [if_neg htag] at h2
        cases h2

theorem recordLoop_err : ∀ {fuel : Nat} {tag : String} {tables : Tables}
    {ctype : Nat} {index : Int} {st : SaveState} {data : List Nat} {e : String},
    recordLoop fuel tag tables ctype index st data = .error e →
    itemErrP e ∨ e = "Junk at end of chunk " ++ tag := by
  intro fuel
  induction fuel with
  | zero =>
    intro tag tables ctype index st data e h
    cases h
    exact .inl (.inl rfl)
  | succ f ih =>
    intro tag tables ctype index st data e h
    unfold recordLoop at h
    rcases bind_err h with h1 | ⟨⟨v, g, d1⟩, h1, h⟩
    · exact .inl (.inr (.inl (gammaDec_err h1)))
    dsimp only at h
    split at h
    · cases h
    split at h
    · rcases bind_err h with h2 | ⟨⟨idx, indexSize, d2⟩, h2, h⟩
      · exact .inl (.inr (.inl (gammaDec_err h2)))
      dsimp only at h
      split at h
      · rcases bind_err h with h3 | ⟨⟨payload, d3⟩, h3, h⟩
        · exact .inl (.inr (.inl (readExact_err h3)))
        dsimp only at h
        rcases bind_err h with h4 | ⟨st1, h4, h⟩
        · exact readItem_err h4
        · exact ih h
      · exact ih h
    · split at h
      · rcases bind_err h with h3 | ⟨⟨payload, d3⟩, h3, h⟩
        · exact .inl (.inr (.inl (readExact_err h3)))
        dsimp only at h
        rcases bind_err h with h4 | ⟨st1, h4, h⟩
        · exact readItem_err h4
        · exact ih h
      · exact ih h

theorem recordLoop_ne_mismatch {fuel : Nat} {tag : String} {tables : Tables}
    {ctype : Nat} {index : Int} {st : SaveState} {data : List Nat}
    (h : recordLoop fuel tag tables ctype index st data =
      .error "Table header size mismatch.") : False := by
  rcases recordLoop_err h with he | he
  · rcases he with he | he | he | ⟨k, he⟩
    · simp [fuelMsg] at he
    · simp [eofMsg] at he
    · simp at he
    · have hd := congrArg String.data he
      rw [String.data_append, String.data_append] at hd
      simp at hd
  · have hd := congrArg String.data he
    rw [String.data_append] at hd
    simp at hd

end Savegame

namespace Savegame

/-- C1: for a collection chunk of type 3 or 4, the dispatcher reads a
gamma-encoded outer size `S`, invokes the schema parser, and fails with
"Table header size mismatch." iff the parser's consumed-byte count differs
from `S - 1`; when they agree the parsed tables are registered under the
chunk tag and the record loop proceeds on that state. -/
theorem claim_C1_schema_size_check (fuel : Nat) (tag : String) (st : SaveState)
    (data : List Nat) (m : Nat) (d1 : List Nat) (v g : Nat) (d2 : List Nat)
    (tables : Tables) (sizeRead : Nat) (d3 : List Nat)
    (hm : readUIntBE 1 data = .ok (m, d1))
    (hct : m &&& 0xF = 3 ∨ m &&& 0xF = 4)
    (hg : gammaDec d1 = .ok (v, g, d2))
    (ht : readAllTablesF fuel d2 = .ok (tables, sizeRead, d3)) :
    (processChunk fuel tag st data = .error "Table header size mismatch." ↔
      (sizeRead : Int) ≠ (v : Int) - 1) ∧
    ((sizeRead : Int) = (v : Int) - 1 →
      processChunk fuel tag st data =
        recordLoop fuel tag tables (m &&& 0xF) (-1)
          { st with tables := dictInsert tag (TablesEntry.tables tables) st.tables } d3 ∧
      dictFind tag (dictInsert tag (TablesEntry.tables tables) st.tables) =
        some (TablesEntry.tables tables)) := by
  have hbody : processChunk fuel tag st data =
      if (sizeRead : Int) ≠ (v : Int) - 1 then .error "Table header size mismatch."
      else recordLoop fuel tag tables (m &&& 0xF) (-1)
        { st with tables := dictInsert tag (TablesEntry.tables tables) st.tables } d3 := by
    unfold processChunk
    simp only [bind, Except.bind]
    rw [hm]
    dsimp only
    rw [if_neg (by rcases hct with hc | hc <;> simp [hc])]
    rw [if_pos (by rcases hct with hc | hc <;> simp [hc])]
    rw [if_pos (by rcases hct with hc | hc <;> simp [hc])]
    rw [hg]
    dsimp only
    rw [ht]
  by_cases hsz : (sizeRead : Int) = (v : Int) - 1
  · constructor
    · rw [hbody, if_neg (by simpa using hsz)]
      constructor
      · intro hc
        exact absurd (recordLoop_ne_mismatch hc) (fun hf => hf)
      · intro hc
        exact absurd hsz hc
    · intro _
      refine ⟨?_, ?_⟩
      · rw [hbody, if_neg (by simpa using hsz)]
      · rw [dictFind_dictInsert]
        simp
  · constructor
    · rw [hbody, if_pos hsz]
      exact ⟨fun _ => hsz, fun _ => rfl⟩
    · intro hc
      exact absurd hc hsz

/-- Witness for C1 on a concrete type-3 chunk: outer gamma size 5, schema
`{a: U8}` of consumed size 4 = 5 - 1, so processing proceeds with the tables
registered under the tag. -/
theorem claim_C1_witness :
    processChunk 8 "AAAA" initState [3, 5, 2, 1, 97, 0, 2, 7, 0] =
      recordLoop 8 "AAAA" [("root", [⟨FieldType.u8, false, "a"⟩])] 3 (-1)
        { initState with
          tables := dictInsert "AAAA"
            (TablesEntry.tables [("root", [⟨FieldType.u8, false, "a"⟩])])
            initState.tables }
        [2, 7, 0] ∧
    dictFind "AAAA"
        (dictInsert "AAAA"
          (TablesEntry.tables [("root", [⟨FieldType.u8, false, "a"⟩])])
          initState.tables) =
      some (TablesEntry.tables [("root", [⟨FieldType.u8, false, "a"⟩])]) :=
  (claim_C1_schema_size_check 8 "AAAA" initState [3, 5, 2, 1, 97, 0, 2, 7, 0]
      3 [5, 2, 1, 97, 0, 2, 7, 0] 5 1 [2, 1, 97, 0, 2, 7, 0]
      [("root", [⟨FieldType.u8, false, "a"⟩])] 4 [2, 7, 0]
      rfl (.inl (by decide)) rfl rfl).2 (by decide)

end Savegame

namespace Savegame

theorem recordLoop_succ (f : Nat) (tag : String) (tables : Tables) (ctype : Nat)
    (index : Int) (st : SaveState) (data : List Nat) :
    recordLoop (f + 1) tag tables ctype index st data = (do
      let (v, _, d1) ← gammaDec data
      let size : Int := (v : Int) - 1
      if size < 0 then pure (st, d1)
      else if ctype = 2 ∨ ctype = 4 then do
        let (idx, indexSize, d2) ← gammaDec d1
        let size2 : Int := size - indexSize
        if size2 ≠ 0 then do
          let (payload, d3) ← readExact size2.toNat d2
          let st1 ← readItem f tag tables idx payload st
          recordLoop f tag tables ctype idx st1 d3
        else recordLoop f tag tables ctype idx st d2
      else do
        let index1 := index + 1
        if size ≠ 0 then do
          let (payload, d3) ← readExact size.toNat d1
          let st1 ← readItem f tag tables index1 payload st
          recordLoop f tag tables ctype index1 st1 d3
        else recordLoop f tag tables ctype index1 st d1) := rfl

/-- C5: in the record loop of a collection chunk with record-size gamma value
`v ≥ 1`, a sparse chunk (type 2 or 4) reads an explicit gamma index and uses
it as the stored index, subtracting its encoded length from the record size;
a dense chunk (type 1 or 3) uses the previous index plus one; and the
dispatcher starts every record loop at index `-1`, so dense indices run
`0, 1, 2, ...` in record order. -/
theorem claim_C5_record_indices (fuel : Nat) (tag : String) (tables : Tables)
    (index : Int) (st : SaveState) (data : List Nat) (v g : Nat) (d1 : List Nat)
    (hg : gammaDec data = .ok (v, g, d1)) (hv : 1 ≤ v) :
    (∀ ctype, (ctype = 2 ∨ ctype = 4) →
      ∀ idx isz d2, gammaDec d1 = .ok (idx, isz, d2) →
      recordLoop (fuel + 1) tag tables ctype index st data =
        (if ((v : Int) - 1 - isz) ≠ 0 then do
          let (payload, d3) ← readExact ((v : Int) - 1 - isz).toNat d2
          let st1 ← readItem fuel tag tables idx payload st
          recordLoop fuel tag tables ctype (idx : Int) st1 d3
        else recordLoop fuel tag tables ctype (idx : Int) st d2)) ∧
    (∀ ctype, (ctype = 1 ∨ ctype = 3) →
      recordLoop (fuel + 1) tag tables ctype index st data =
        (if ((v : Int) - 1) ≠ 0 then do
          let (payload, d3) ← readExact ((v : Int) - 1).toNat d1
          let st1 ← readItem fuel tag tables (index + 1) payload st
          recordLoop fuel tag tables ctype (index + 1) st1 d3
        else recordLoop fuel tag tables ctype (index + 1) st d1)) ∧
    (∀ (data0 : List Nat) (m : Nat) (d0 : List Nat),
      readUIntBE 1 data0 = .ok (m, d0) →
      (m &&& 0xF = 1 ∨ m &&& 0xF = 2) →
      processChunk fuel tag st data0 =
        recordLoop fuel tag [] (m &&& 0xF) (-1) st d0) := by
  refine ⟨?_, ?_, ?_⟩
  · intro ctype hc idx isz d2 hg2
    rw [recordLoop_succ]
    simp only [bind, Except.bind]
    rw [hg]
    dsimp only
    rw [if_neg (by omega : ¬ ((v : Int) - 1 < 0))]
    rw [if_pos hc]
    rw [hg2]
  · intro ctype hc
    rw [recordLoop_succ]
    simp only [bind, Except.bind]
    rw [hg]
    dsimp only
    rw [if_neg (by omega : ¬ ((v : Int) - 1 < 0))]
    rw [if_neg (by rcases hc with hc | hc <;> simp [hc])]
  · intro data0 m d0 hm hct
    unfold processChunk
    simp only [bind, Except.bind]
    rw [hm]
    dsimp only
    rw [if_neg (by rcases hct with hc | hc <;> simp [hc])]
    rw [if_pos (by rcases hct with hc | hc <;> simp [hc])]
    rw [if_neg (by rcases hct with hc | hc <;> simp [hc])]

end Savegame

namespace Savegame

/-- Witness for C5: a sparse (type 4) record with size gamma 3 and explicit
index gamma 7 proceeds with stored index 7 and record size 3 - 1 - 1 = 1. -/
theorem claim_C5_witness :
    recordLoop 5 "BBBB" [("root", [⟨FieldType.u8, false, "a"⟩])] 4 (-1) initState
        [3, 7, 9, 0] =
      (if ((3 : Int) - 1 - (1 : Int)) ≠ 0 then do
        let (payload, d3) ← readExact ((3 : Int) - 1 - (1 : Int)).toNat [9, 0]
        let st1 ← readItem 4 "BBBB" [("root", [⟨FieldType.u8, false, "a"⟩])] (7 : Int)
          payload initState
        recordLoop 4 "BBBB" [("root", [⟨FieldType.u8, false, "a"⟩])] 4 (7 : Int) st1 d3
      else recordLoop 4 "BBBB" [("root", [⟨FieldType.u8, false, "a"⟩])] 4 (7 : Int)
        initState [9, 0]) :=
  (claim_C5_record_indices 4 "BBBB" [("root", [⟨FieldType.u8, false, "a"⟩])] (-1)
      initState [3, 7, 9, 0] 3 1 [7, 9, 0] rfl (by decide)).1
    4 (.inr rfl) 7 1 [9, 0] rfl

/-- C9 (counterexample, negation of the claim): no input at all makes a
singleton/RIFF chunk (header low-nibble 0, tag other than the reserved
`SLXI`) produce an ItemStore entry: the item store is unchanged by
processing such a chunk, so in particular no entry keyed `"0"` holding the
decoded payload record ever appears. -/
theorem claim_C9_counterexample :
    ¬ ∃ (fuel : Nat) (tag : String) (st : SaveState) (data : List Nat)
        (st' : SaveState) (rest : List Nat) (m : Nat) (d1 : List Nat),
      tag ≠ "SLXI" ∧
      readUIntBE 1 data = .ok (m, d1) ∧ m &&& 0xF = 0 ∧
      processChunk fuel tag st data = .ok (st', rest) ∧
      st'.items ≠ st.items := by
  rintro ⟨fuel, tag, st, data, st', rest, m, d1, htag, hm, hct, hproc, hitems⟩
  unfold processChunk at hproc
  simp only [bind, Except.bind] at hproc
  rw [hm] at hproc
  dsimp only at hproc
  rw [if_pos hct] at hproc
  obtain ⟨⟨len24, d2⟩, h2, hproc⟩ := bind_ok hproc
  dsimp only at hproc
  obtain ⟨⟨payload, d3⟩, h3, hproc⟩ := bind_ok hproc
  dsimp only at hproc
  rw [if_neg htag] at hproc
  cases h4 : readItem fuel tag [] (-1) payload st with
  | error e =>
    rw [h4] at hproc
    cases hproc
  | ok st1 =>
    rw [h4] at hproc
    have hst1 : st1 = { st with tables := dictInsert tag TablesEntry.unsupported st.tables } := by
      unfold readItem at h4
      rw [if_pos rfl] at h4
      cases h4
      rfl
    cases hproc
    apply hitems
    rw [hst1]

/-- C9 (amended): a singleton/RIFF chunk (header low-nibble 0) whose tag is
not `SLXI` is always recorded as an unsupported placeholder in the tables
registry and never yields an ItemStore entry, because `read_item` is invoked
with an empty schema registry. -/
theorem claim_C9_singleton_unsupported (fuel : Nat) (tag : String) (st : SaveState)
    (data : List Nat) (m : Nat) (d1 : List Nat) (st' : SaveState) (rest : List Nat)
    (htag : tag ≠ "SLXI") (hm : readUIntBE 1 data = .ok (m, d1)) (hct : m &&& 0xF = 0)
    (hok : processChunk fuel tag st data = .ok (st', rest)) :
    st'.items = st.items ∧ dictFind tag st'.tables = some TablesEntry.unsupported := by
  unfold processChunk at hok
  simp only [bind, Except.bind] at hok
  rw [hm] at hok
  dsimp only at hok
  rw [if_pos hct] at hok
  obtain ⟨⟨len24, d2⟩, h2, hok⟩ := bind_ok hok
  dsimp only at hok
  obtain ⟨⟨payload, d3⟩, h3, hok⟩ := bind_ok hok
  dsimp only at hok
  rw [if_neg htag] at hok
  cases h4 : readItem fuel tag [] (-1) payload st with
  | error e =>
    rw [h4] at hok
    cases hok
  | ok st1 =>
    rw [h4] at hok
    have hst1 : st1 = { st with tables := dictInsert tag TablesEntry.unsupported st.tables } := by
      unfold readItem at h4
      rw [if_pos rfl] at h4
      cases h4
      rfl
    cases hok
    rw [hst1]
    refine ⟨rfl, ?_⟩
    rw [dictFind_dictInsert]
    simp

/-- Witness for C9 (amended) on a concrete 2-byte singleton chunk under tag
`"AAAA"`. -/
theorem claim_C9_witness :
    ({ tables := [("AAAA", TablesEntry.unsupported)], items := [] } : SaveState).items =
      initState.items ∧
    dictFind "AAAA"
        ({ tables := [("AAAA", TablesEntry.unsupported)], items := [] } : SaveState).tables =
      some TablesEntry.unsupported :=
  claim_C9_singleton_unsupported 3 "AAAA" initState [0, 0, 0, 2, 9, 9] 0 [0, 0, 2, 9, 9]
    { tables := [("AAAA", TablesEntry.unsupported)], items := [] } []
    (by decide) rfl (by decide) rfl

end Savegame
